import Mathlib

/-!
Verification of the procedural terrain classification and chunk streaming
core of the procgentown repository.

The development shallowly embeds the terrain code:
the class TerrainGenerator (TerrainGenerator.ts) together with the MapData
store (MapData.ts) and the class ChunkManager (the chunk streaming cache).
JavaScript Map objects keyed by the string "col,row" are modelled as
association lists or finite sets over integer pairs (the key encoding is
injective on integer pairs).  Floating point viewport arithmetic is
modelled over the rationals, numeric literals of the source becoming the
corresponding rational constants.  The seeded simplex noise generator is
abstracted as the arbitrary deterministic rational valued function it
becomes once the constructor has consumed the seed.
-/

namespace ProcGen

/-- A tile coordinate, the pair (col, row) of integers. -/
abbrev Tile := Int × Int

/-- Terrain types stored in MapData (source: MapData.ts, type MapTileType). -/
inductive MapTileType
  | grass
  | water
deriving DecidableEq, Repr

/-- Rendering variants (source: TerrainGenerator.ts, type TileVariant). -/
inductive TileVariant
  | water
  | grass
  | grass_water_N
  | grass_water_E
  | grass_water_S
  | grass_water_W
  | grass_waterConcave_N
  | grass_waterConcave_E
  | grass_waterConcave_S
  | grass_waterConcave_W
deriving DecidableEq, Repr

/-- State of a TerrainGenerator instance: the noise function produced by
createNoise2D at construction time (pure once built) and the mutable
smoothing flag.  The noise parameters are module constants below. -/
structure TerrainGenerator where
  noise2D : ℚ → ℚ → ℚ
  smoothingEnabled : Bool

/-- Source constant noiseScale = 0.1. -/
def noiseScale : ℚ := 1 / 10

/-- Source constant waterThreshold = 0.2. -/
def waterThreshold : ℚ := 1 / 5

/-- Source constant minWaterClusterSize = 4. -/
def minWaterClusterSize : Nat := 4

/-- Source constant PADDING = 8 of generateChunkTerrain. -/
def PADDING : Int := 8

/-- isWaterByNoise of TerrainGenerator.ts: sample the noise at scaled
coordinates, renormalise from [-1,1] to [0,1] and compare with the water
threshold. -/
def TerrainGenerator.isWaterByNoise (g : TerrainGenerator) (col row : Int) : Bool :=
  let noiseValue := g.noise2D (col * noiseScale) (row * noiseScale)
  let normalizedNoise := (noiseValue + 1) / 2
  decide (normalizedNoise < waterThreshold)

/-- The integer values a, a+1, ..., b-1 visited by a JavaScript loop
running from a while the counter stays below b. -/
def intRange (a b : Int) : List Int :=
  (List.range (b - a).toNat).map (fun (i : Nat) => a + (i : Int))

/-- Row major list of the tiles of the half open rectangle, in the order
the nested loops of generateWaterMap and generateChunkTerrain visit them
(outer loop on rows, inner loop on cols). -/
def regionTiles (startCol startRow endCol endRow : Int) : List Tile :=
  (intRange startRow endRow).flatMap
    (fun row => (intRange startCol endCol).map (fun col => (col, row)))

/-- First pass of generateWaterMap: the set of region tiles whose entry of
rawWaterMap is true.  A lookup of the JavaScript map is truthy exactly on
these keys, so the set determines every lookup the later passes perform. -/
def rawWaterTiles (g : TerrainGenerator) (startCol startRow endCol endRow : Int) :
    Finset Tile :=
  ((regionTiles startCol startRow endCol endRow).filter
    (fun p => g.isWaterByNoise p.1 p.2)).toFinset

/-- The recursive flood fill countWaterClusterSize of TerrainGenerator.ts,
with an explicit recursion budget (the source recursion terminates because
every productive call consumes one unvisited water tile; the budget makes
that measure explicit).  Returns the counted size together with the final
visited set; the source accumulates the same set by mutating its visited
argument.  Neighbours are explored in the source order:
(col-1,row), (col+1,row), (col,row-1), (col,row+1). -/
def floodFillVisit (waterMap : Finset Tile) :
    Nat → Tile → Finset Tile → Nat × Finset Tile
  | 0, _, visited => (0, visited)
  | fuel + 1, p, visited =>
    if p ∈ visited ∨ p ∉ waterMap then (0, visited)
    else
      let v0 := insert p visited
      let r1 := floodFillVisit waterMap fuel (p.1 - 1, p.2) v0
      let r2 := floodFillVisit waterMap fuel (p.1 + 1, p.2) r1.2
      let r3 := floodFillVisit waterMap fuel (p.1, p.2 - 1) r2.2
      let r4 := floodFillVisit waterMap fuel (p.1, p.2 + 1) r3.2
      (1 + r1.1 + r2.1 + r3.1 + r4.1, r4.2)

/-- countWaterClusterSize as invoked by generateWaterMap: a fresh, empty
clusterVisited set; the budget exceeds the number of water tiles, which
the flood fill never exhausts. -/
def countWaterClusterSize (waterMap : Finset Tile) (p : Tile) : Nat × Finset Tile :=
  floodFillVisit waterMap (waterMap.card + 1) p ∅

/-- One iteration of the second pass of generateWaterMap.  The accumulator
carries (visited, smallClusters).  An unvisited water tile has its cluster
counted; every cluster tile becomes visited, and additionally enters
smallClusters when the cluster size is below minWaterClusterSize. -/
def markClusters (waterMap : Finset Tile) (acc : Finset Tile × Finset Tile)
    (p : Tile) : Finset Tile × Finset Tile :=
  if p ∉ acc.1 ∧ p ∈ waterMap then
    let r := countWaterClusterSize waterMap p
    (acc.1 ∪ r.2, if r.1 < minWaterClusterSize then acc.2 ∪ r.2 else acc.2)
  else acc

/-- generateWaterMap of TerrainGenerator.ts, returned as the set of tiles
whose final map entry is true: raw water tiles minus the small clusters
collected by the second pass (third pass of the source).  Every other key
of the final map stores false, and lookups outside the region are
undefined, so both are falsy and the set captures the whole map. -/
def generateWaterMap (g : TerrainGenerator) (startCol startRow endCol endRow : Int) :
    Finset Tile :=
  let rawWaterMap := rawWaterTiles g startCol startRow endCol endRow
  let pass := (regionTiles startCol startRow endCol endRow).foldl
    (markClusters rawWaterMap) (∅, ∅)
  rawWaterMap \ pass.2

/-- getWaterTileVariant of TerrainGenerator.ts.  Membership of the water
set replaces the truthy map lookups of the source; the branch structure is
the branch structure of the source. -/
def TerrainGenerator.getWaterTileVariant (g : TerrainGenerator) (col row : Int)
    (waterMap : Finset Tile) : TileVariant :=
  if (col, row) ∉ waterMap then .grass
  else if !g.smoothingEnabled then .water
  else
    let hasWaterN : Bool := decide ((col + 1, row) ∈ waterMap)
    let hasWaterE : Bool := decide ((col, row + 1) ∈ waterMap)
    let hasWaterS : Bool := decide ((col - 1, row) ∈ waterMap)
    let hasWaterW : Bool := decide ((col, row - 1) ∈ waterMap)
    let waterCount :=
      ([hasWaterN, hasWaterE, hasWaterS, hasWaterW].filter (fun b => b)).length
    if waterCount = 4 then .water
    else if !hasWaterE && hasWaterN && hasWaterW && hasWaterS then .grass_water_E
    else if !hasWaterS && hasWaterE && hasWaterN && hasWaterW then .grass_water_S
    else if !hasWaterW && hasWaterE && hasWaterS && hasWaterN then .grass_water_W
    else if !hasWaterN && hasWaterE && hasWaterS && hasWaterW then .grass_water_N
    else if hasWaterS && hasWaterW && !hasWaterN && !hasWaterE then .grass_waterConcave_N
    else if hasWaterN && hasWaterW && !hasWaterE && !hasWaterS then .grass_waterConcave_E
    else if hasWaterN && hasWaterE && !hasWaterS && !hasWaterW then .grass_waterConcave_S
    else if hasWaterS && hasWaterE && !hasWaterW && !hasWaterN then .grass_waterConcave_W
    else .water

/-- Lookup of a JavaScript Map modelled as an association list (the keys
written by the generator are pairwise distinct, so first match semantics
agree with the map). -/
def mapGet {κ α : Type} [DecidableEq κ] (entries : List (κ × α)) (k : κ) : Option α :=
  match entries with
  | [] => none
  | (q, v) :: rest => if q = k then some v else mapGet rest k

/-- Result record of generateChunkTerrain: the MapData store and the
variant map, both as association lists over tile keys. -/
structure ChunkTerrainResult where
  mapData : List (Tile × MapTileType)
  tileVariants : List (Tile × TileVariant)
deriving DecidableEq

/-- generateChunkTerrain of TerrainGenerator.ts: pad the chunk rectangle
by PADDING on every side, build the filtered water map over the padded
rectangle, then write a MapData entry and a variant entry for every tile
the loops visit. -/
def TerrainGenerator.generateChunkTerrain (g : TerrainGenerator)
    (chunkX chunkY chunkSize : Int) : ChunkTerrainResult :=
  let startCol := chunkX * chunkSize - PADDING
  let startRow := chunkY * chunkSize - PADDING
  let endCol := (chunkX + 1) * chunkSize + PADDING
  let endRow := (chunkY + 1) * chunkSize + PADDING
  let waterMap := generateWaterMap g startCol startRow endCol endRow
  let tiles := regionTiles startCol startRow endCol endRow
  { mapData := tiles.map
      (fun p => (p, if p ∈ waterMap then MapTileType.water else MapTileType.grass)),
    tileVariants := tiles.map
      (fun p => (p, g.getWaterTileVariant p.1 p.2 waterMap)) }

/-- generateChunkTerrain seen as a method: the source method reads the
instance but assigns no field, so the state component of the result is
the unchanged receiver. -/
def TerrainGenerator.generateChunkTerrainM (g : TerrainGenerator)
    (chunkX chunkY chunkSize : Int) : ChunkTerrainResult × TerrainGenerator :=
  (g.generateChunkTerrain chunkX chunkY chunkSize, g)

/-- Source constant CHUNK_SIZE = 16 of ChunkManager. -/
def CHUNK_SIZE : Int := 16

/-- Source constant RENDER_DISTANCE = 2 of ChunkManager. -/
def RENDER_DISTANCE : Int := 2

/-- Per chunk record kept by the cache: the list of hit area overlays (one
per rendered tile, remembered by the tile it was created for) and the
MapData produced by the terrain generator. -/
structure ChunkData where
  hitAreas : List Tile
  mapData : List (Tile × MapTileType)
deriving DecidableEq

/-- State of a ChunkManager instance.  The two render filter flags come
from the config module (not under src, their values are irrelevant here);
hasGridManager records whether setGridManager has supplied a grid manager;
hooks is the set of tile interactions currently registered with it (the
hitbox overlay map of the grid manager, keyed by tile coordinate);
chunkCoordinates is the bookkeeping map of registered coordinates per
chunk, total with default value the empty list (absent key in the source
map). -/
structure ChunkManager where
  tg : TerrainGenerator
  isoStepX : ℚ
  isoStepY : ℚ
  renderAxesOnly : Bool
  renderMinimalTiles : Bool
  hasGridManager : Bool
  chunks : List ((Int × Int) × ChunkData)
  chunkCoordinates : (Int × Int) → List Tile
  hooks : Finset Tile

/-- shouldRenderTile of ChunkManager. -/
def ChunkManager.shouldRenderTile (cm : ChunkManager) (col row : Int) : Bool :=
  if cm.renderAxesOnly then decide (col = 0 ∨ row = 0)
  else if !cm.renderMinimalTiles then true
  else decide ((col = 0 ∨ col = 1) ∧ (row = 0 ∨ row = 1))

/-- The tiles of a chunk that generateChunk renders and registers: the
unpadded chunk rectangle, filtered by shouldRenderTile and sorted back to
front by isometric depth col + row. -/
def ChunkManager.chunkRenderTiles (cm : ChunkManager) (chunkX chunkY : Int) :
    List Tile :=
  let base := (regionTiles (chunkX * CHUNK_SIZE) (chunkY * CHUNK_SIZE)
    (chunkX * CHUNK_SIZE + CHUNK_SIZE) (chunkY * CHUNK_SIZE + CHUNK_SIZE)).filter
    (fun p => cm.shouldRenderTile p.1 p.2)
  base.mergeSort (fun a b => a.1 + a.2 ≤ b.1 + b.2)

/-- The chunk record generateChunk returns for given chunk coordinates:
one hit area per rendered tile and the MapData of generateChunkTerrain.
Every variant owns a texture (the constructor stores all ten), so no tile
is skipped by the missing texture guard. -/
def ChunkManager.chunkDataFor (cm : ChunkManager) (chunkX chunkY : Int) : ChunkData :=
  { hitAreas := cm.chunkRenderTiles chunkX chunkY,
    mapData := (cm.tg.generateChunkTerrain chunkX chunkY CHUNK_SIZE).mapData }

/-- generateChunk of ChunkManager: returns the produced chunk record and
the state after the side effects on the grid manager.  When a grid
manager is set, every rendered tile is registered as a tile interaction
and the coordinate list of the chunk is stored (the source stores it only
when nonempty, which with no grid manager never happens). -/
def ChunkManager.generateChunk (cm : ChunkManager) (chunkX chunkY : Int) :
    ChunkManager × ChunkData :=
  let renderTiles := cm.chunkRenderTiles chunkX chunkY
  let coordinates := if cm.hasGridManager then renderTiles else []
  let hooks1 := if cm.hasGridManager then
      renderTiles.foldl (fun s p => insert p s) cm.hooks else cm.hooks
  let chunkCoords1 := if coordinates ≠ [] then
      Function.update cm.chunkCoordinates (chunkX, chunkY) coordinates
    else cm.chunkCoordinates
  ({ cm with hooks := hooks1, chunkCoordinates := chunkCoords1 },
    cm.chunkDataFor chunkX chunkY)

/-- tileToChunk of ChunkManager: Math.floor of the coordinate divided by
the chunk size, i.e. flooring integer division. -/
def tileToChunk (col row : Int) : Int × Int :=
  (Int.fdiv col CHUNK_SIZE, Int.fdiv row CHUNK_SIZE)

/-- worldPosToTile of ChunkManager: the floor based inverse isometric
projection. -/
def ChunkManager.worldPosToTile (cm : ChunkManager) (worldX worldY : ℚ) : Tile :=
  let sum := worldY / cm.isoStepY
  let diff := worldX / cm.isoStepX
  (⌊(sum + diff) / 2⌋, ⌊(sum - diff) / 2⌋)

/-- getTileType of ChunkManager: locate the containing chunk in the cache
and, when resident, look the tile up in its MapData. -/
def ChunkManager.getTileType (cm : ChunkManager) (col row : Int) : Option MapTileType :=
  let ck := tileToChunk col row
  match mapGet cm.chunks ck with
  | none => none
  | some chunk => mapGet chunk.mapData (col, row)

/-- The integer values a, a+1, ..., b of a JavaScript loop running while
the counter stays at most b. -/
def intRangeIcc (a b : Int) : List Int :=
  intRange a (b + 1)

/-- The chunk keys of the doubly nested load loop of updateVisibleChunks,
outer loop on chunkY, inner on chunkX, keys (chunkX, chunkY). -/
def chunkKeyList (minCX minCY maxCX maxCY : Int) : List (Int × Int) :=
  (intRangeIcc minCY maxCY).flatMap
    (fun cy => (intRangeIcc minCX maxCX).map (fun cx => (cx, cy)))

/-- Body of the load loop of updateVisibleChunks: generate and store the
chunk under key k unless it is already resident. -/
def ChunkManager.loadChunkIfAbsent (cm : ChunkManager) (k : Int × Int) : ChunkManager :=
  if mapGet cm.chunks k ≠ none then cm
  else
    let r := cm.generateChunk k.1 k.2
    { r.1 with chunks := r.1.chunks ++ [(k, r.2)] }

/-- Body of the unload loop of updateVisibleChunks: drop the chunk record,
deregister every coordinate the chunk stored (when a grid manager is set)
and delete the coordinate bookkeeping entry. -/
def ChunkManager.evictChunk (cm : ChunkManager) (k : Int × Int) : ChunkManager :=
  let coords := cm.chunkCoordinates k
  { cm with
    chunks := cm.chunks.filter (fun e => e.1 ≠ k),
    hooks := if cm.hasGridManager then
        coords.foldl (fun s p => s.erase p) cm.hooks else cm.hooks,
    chunkCoordinates := Function.update cm.chunkCoordinates k [] }

/-- Steps 1 and 2 of updateVisibleChunks: the chunk bounding box
(minChunkX, minChunkY, maxChunkX, maxChunkY) of the viewport, expanded by
the render distance in every direction.  The viewport corners are taken
to tiles by the inverse projection, the tiles to chunk coordinates by
flooring division. -/
def ChunkManager.viewportChunkBox (cm : ChunkManager)
    (viewportCenterX viewportCenterY viewportWidth viewportHeight scale : ℚ) :
    Int × Int × Int × Int :=
  let worldWidth := viewportWidth / scale
  let worldHeight := viewportHeight / scale
  let topLeft := cm.worldPosToTile (viewportCenterX - worldWidth / 2)
    (viewportCenterY - worldHeight / 2)
  let bottomRight := cm.worldPosToTile (viewportCenterX + worldWidth / 2)
    (viewportCenterY + worldHeight / 2)
  let minChunk := tileToChunk topLeft.1 topLeft.2
  let maxChunk := tileToChunk bottomRight.1 bottomRight.2
  (minChunk.1 - RENDER_DISTANCE, minChunk.2 - RENDER_DISTANCE,
    maxChunk.1 + RENDER_DISTANCE, maxChunk.2 + RENDER_DISTANCE)

/-- updateVisibleChunks of ChunkManager: compute the required chunk box
from the viewport, load every absent chunk of the box, then evict every
resident chunk outside it.  The tilemap rebuild has no cache state. -/
def ChunkManager.updateVisibleChunks (cm : ChunkManager)
    (viewportCenterX viewportCenterY viewportWidth viewportHeight scale : ℚ) :
    ChunkManager :=
  let box := cm.viewportChunkBox viewportCenterX viewportCenterY viewportWidth
    viewportHeight scale
  let keep := chunkKeyList box.1 box.2.1 box.2.2.1 box.2.2.2
  let cm1 := keep.foldl ChunkManager.loadChunkIfAbsent cm
  let toEvict := (cm1.chunks.map Prod.fst).filter (fun k => decide (k ∉ keep))
  toEvict.foldl ChunkManager.evictChunk cm1

/-- The required chunk set of the specification: the chunk coordinate
bounding box of the viewport tile bounding box, expanded by the render
distance in every direction. -/
def ChunkManager.requiredChunks (cm : ChunkManager)
    (viewportCenterX viewportCenterY viewportWidth viewportHeight scale : ℚ) :
    Finset (Int × Int) :=
  let box := cm.viewportChunkBox viewportCenterX viewportCenterY viewportWidth
    viewportHeight scale
  Finset.Icc box.1 box.2.2.1 ×ˢ Finset.Icc box.2.1 box.2.2.2

/-- The configuration components of a ChunkManager that chunk generation
reads: generator state, projection steps, render filter flags and the
grid manager presence flag. -/
def ChunkManager.config (cm : ChunkManager) :
    TerrainGenerator × ℚ × ℚ × Bool × Bool × Bool :=
  (cm.tg, cm.isoStepX, cm.isoStepY, cm.renderAxesOnly, cm.renderMinimalTiles,
    cm.hasGridManager)

/-! Specification side notions, for the claims that compare the code with
the wording of the specification. -/

/-- Two tiles are 4-connected neighbours (the four non diagonal offsets
the flood fill explores). -/
def adjacentTile (a b : Tile) : Prop :=
  b = (a.1 - 1, a.2) ∨ b = (a.1 + 1, a.2) ∨ b = (a.1, a.2 - 1) ∨ b = (a.1, a.2 + 1)

/-- Reachability from p to q through tiles of W by 4-connected steps:
the path stays inside W at both ends of every step. -/
def reachesIn (W : Finset Tile) (p q : Tile) : Prop :=
  Relation.ReflTransGen (fun a b => adjacentTile a b ∧ a ∈ W ∧ b ∈ W) p q

/-- The maximal 4-connected component of W containing p, as worded by the
specification (raw water tiles restricted to the region are passed as W). -/
def waterComponent (W : Finset Tile) (p : Tile) : Set Tile :=
  { q | reachesIn W p q }

/-- Modelled from the spec: the total variant table of the specification
for a water tile with smoothing enabled, as a function of the four axis
neighbour water flags.  All four water gives plain water; exactly three
gives the straight edge named for the non water side; two adjacent water
neighbours give the concave variant of the fixed pairing; every remaining
combination gives plain water. -/
def specVariantFor (n e s w : Bool) : TileVariant :=
  if n && e && s && w then .water
  else if !e && n && s && w then .grass_water_E
  else if !s && n && e && w then .grass_water_S
  else if !w && n && e && s then .grass_water_W
  else if !n && e && s && w then .grass_water_N
  else if s && w && !n && !e then .grass_waterConcave_N
  else if n && w && !e && !s then .grass_waterConcave_E
  else if n && e && !s && !w then .grass_waterConcave_S
  else if s && e && !w && !n then .grass_waterConcave_W
  else .water

/-! Concrete instances used by the witness theorems. -/

/-- A generator whose noise is constantly -1: every tile is raw water. -/
def demoWaterGen : TerrainGenerator :=
  { noise2D := fun _ _ => -1, smoothingEnabled := true }

/-- A generator whose noise is constantly 1: every tile is grass. -/
def demoGrassGen : TerrainGenerator :=
  { noise2D := fun _ _ => 1, smoothingEnabled := true }

/-- A chunk manager over the all grass generator with an empty cache, the
projection steps of the source constants (tileContentWidth 233, overlap
10) and a grid manager attached. -/
def demoCM : ChunkManager :=
  { tg := demoGrassGen
    isoStepX := (233 - 10) / 2
    isoStepY := (233 - 10) / 4
    renderAxesOnly := false
    renderMinimalTiles := false
    hasGridManager := true
    chunks := []
    chunkCoordinates := fun _ => []
    hooks := ∅ }

/-! Basic lemmas about the loop ranges and the association list lookup. -/

lemma mem_intRange {a b x : Int} : x ∈ intRange a b ↔ a ≤ x ∧ x < b := by
  unfold intRange
  constructor
  · intro hx
    obtain ⟨i, hi, hx⟩ := List.mem_map.mp hx
    have hi2 := List.mem_range.mp hi
    subst hx
    omega
  · intro hx
    refine List.mem_map.mpr ⟨(x - a).toNat, List.mem_range.mpr ?_, ?_⟩ <;> omega

lemma mem_regionTiles {sc sr ec er : Int} {p : Tile} :
    p ∈ regionTiles sc sr ec er ↔ sc ≤ p.1 ∧ p.1 < ec ∧ sr ≤ p.2 ∧ p.2 < er := by
  unfold regionTiles
  simp only [List.mem_flatMap, List.mem_map, mem_intRange]
  constructor
  · rintro ⟨r, hr, c, hc, rfl⟩
    exact ⟨hc.1, hc.2, hr.1, hr.2⟩
  · rintro ⟨h1, h2, h3, h4⟩
    exact ⟨p.2, ⟨h3, h4⟩, p.1, ⟨h1, h2⟩, by simp⟩

lemma mapGet_cons {κ α : Type} [DecidableEq κ] (q : κ) (v : α)
    (rest : List (κ × α)) (k : κ) :
    mapGet ((q, v) :: rest) k = if q = k then some v else mapGet rest k := rfl

lemma mapGet_map_self {κ α : Type} [DecidableEq κ] (f : κ → α) (l : List κ) (k : κ) :
    mapGet (l.map (fun q => (q, f q))) k = if k ∈ l then some (f k) else none := by
  induction l with
  | nil => rfl
  | cons q rest ih =>
    rw [List.map_cons, mapGet_cons]
    by_cases h : q = k
    · subst h
      simp
    · have h2 : ¬k = q := fun hk => h hk.symm
      simp [h, h2, ih]

lemma mapGet_append_left {κ α : Type} [DecidableEq κ] {l1 : List (κ × α)}
    (l2 : List (κ × α)) {k : κ} {v : α} (h : mapGet l1 k = some v) :
    mapGet (l1 ++ l2) k = some v := by
  induction l1 with
  | nil => simp [mapGet] at h
  | cons e rest ih =>
    obtain ⟨q, w⟩ := e
    rw [List.cons_append, mapGet_cons]
    rw [mapGet_cons] at h
    by_cases hq : q = k
    · rwa [if_pos hq] at h ⊢
    · rw [if_neg hq] at h ⊢
      exact ih h

lemma mapGet_append_right {κ α : Type} [DecidableEq κ] {l1 : List (κ × α)}
    (l2 : List (κ × α)) {k : κ} (h : mapGet l1 k = none) :
    mapGet (l1 ++ l2) k = mapGet l2 k := by
  induction l1 with
  | nil => rfl
  | cons e rest ih =>
    obtain ⟨q, w⟩ := e
    rw [List.cons_append, mapGet_cons]
    rw [mapGet_cons] at h
    by_cases hq : q = k
    · rw [if_pos hq] at h
      exact absurd h (by simp)
    · rw [if_neg hq] at h ⊢
      exact ih h

lemma mapGet_eq_none_iff {κ α : Type} [DecidableEq κ] {l : List (κ × α)} {k : κ} :
    mapGet l k = none ↔ k ∉ l.map Prod.fst := by
  induction l with
  | nil => simp [mapGet]
  | cons e rest ih =>
    obtain ⟨q, w⟩ := e
    rw [mapGet_cons]
    by_cases hq : q = k
    · simp [hq]
    · have h2 : ¬k = q := fun hk => hq hk.symm
      simp [hq, h2, ih]

lemma mapGet_filter_self {κ α : Type} [DecidableEq κ] (l : List (κ × α)) (k : κ) :
    mapGet (l.filter (fun e => e.1 ≠ k)) k = none := by
  induction l with
  | nil => rfl
  | cons e rest ih =>
    obtain ⟨q, w⟩ := e
    rw [List.filter_cons]
    by_cases hq : q = k
    · simpa [hq] using ih
    · have hd : (decide ((q, w).1 ≠ k)) = true := by simpa using hq
      rw [if_pos hd, mapGet_cons, if_neg hq]
      exact ih

lemma mapGet_filter_ne {κ α : Type} [DecidableEq κ] (l : List (κ × α)) {k k' : κ}
    (h : k' ≠ k) : mapGet (l.filter (fun e => e.1 ≠ k)) k' = mapGet l k' := by
  induction l with
  | nil => rfl
  | cons e rest ih =>
    obtain ⟨q, w⟩ := e
    rw [List.filter_cons, mapGet_cons]
    by_cases hq : q = k
    · subst hq
      rw [if_neg (by simp), if_neg (fun e => h e.symm)]
      exact ih
    · have hd : (decide ((q, w).1 ≠ k)) = true := by simpa using hq
      rw [if_pos hd, mapGet_cons]
      by_cases hq' : q = k'
      · rw [if_pos hq', if_pos hq']
      · rw [if_neg hq', if_neg hq']
        exact ih

/-! Claim C5: two calls of generateChunkTerrain with identical arguments
return identical results, and the generator state does not drift. -/

/-- C5: for a fixed generator state, calling generateChunkTerrain twice in
sequence with identical arguments yields identical results, the second
call starting from the state the first call left behind; the state itself
is unchanged by a call (no hidden state drift). -/
theorem generateChunkTerrain_deterministic (g : TerrainGenerator)
    (chunkX chunkY chunkSize : Int) :
    ((g.generateChunkTerrainM chunkX chunkY chunkSize).2.generateChunkTerrainM
        chunkX chunkY chunkSize).1 =
      (g.generateChunkTerrainM chunkX chunkY chunkSize).1 ∧
    (g.generateChunkTerrainM chunkX chunkY chunkSize).2 = g :=
  ⟨rfl, rfl⟩

/-! Claim C7: the terrain types of generateChunkTerrain do not depend on
the smoothing flag. -/

/-- C7: two runs of generateChunkTerrain over generator states that agree
except possibly on the smoothing flag produce the same MapData (terrain
types); only the variant map can differ. -/
theorem generateChunkTerrain_smoothing_independent (g : TerrainGenerator)
    (b1 b2 : Bool) (chunkX chunkY chunkSize : Int) :
    (TerrainGenerator.generateChunkTerrain { g with smoothingEnabled := b1 }
      chunkX chunkY chunkSize).mapData =
    (TerrainGenerator.generateChunkTerrain { g with smoothingEnabled := b2 }
      chunkX chunkY chunkSize).mapData :=
  rfl

/-! Claim C9: the cluster filter never creates water. -/

/-- C9: every tile of the filtered water map of generateWaterMap is a raw
water tile of the region: the filter only reclassifies water to grass. -/
theorem generateWaterMap_subset_raw (g : TerrainGenerator) (sc sr ec er : Int) :
    generateWaterMap g sc sr ec er ⊆ rawWaterTiles g sc sr ec er := by
  unfold generateWaterMap
  exact Finset.sdiff_subset

/-! Claim C6: the floor based inverse isometric projection is a left
inverse of the forward projection on integer tile coordinates. -/

/-- C6: for positive projection steps, converting a tile coordinate to
world coordinates with the forward projection of generateChunk and back
with worldPosToTile returns the original tile. -/
theorem worldPosToTile_roundTrip (cm : ChunkManager)
    (hx : 0 < cm.isoStepX) (hy : 0 < cm.isoStepY) (col row : Int) :
    cm.worldPosToTile (((col : ℚ) - row) * cm.isoStepX) (((col : ℚ) + row) * cm.isoStepY)
      = (col, row) := by
  simp only [ChunkManager.worldPosToTile]
  rw [mul_div_cancel_right₀ _ (ne_of_gt hy), mul_div_cancel_right₀ _ (ne_of_gt hx)]
  have h1 : (((col : ℚ) + row) + ((col : ℚ) - row)) / 2 = (col : ℚ) := by ring
  have h2 : (((col : ℚ) + row) - ((col : ℚ) - row)) / 2 = (row : ℚ) := by ring
  rw [h1, h2, Int.floor_intCast, Int.floor_intCast]

/-- Witness for C6 at the projection steps of the source constants. -/
theorem worldPosToTile_roundTrip_witness :
    demoCM.worldPosToTile (((3 : ℚ) - 5) * demoCM.isoStepX)
      (((3 : ℚ) + 5) * demoCM.isoStepY) = (3, 5) :=
  worldPosToTile_roundTrip demoCM (by norm_num [demoCM]) (by norm_num [demoCM]) 3 5

/-! Helper facts about the demonstration generators. -/

lemma demoGrassGen_no_water : ∀ c r : Int, demoGrassGen.isWaterByNoise c r = false := by
  intro c r
  norm_num [demoGrassGen, TerrainGenerator.isWaterByNoise, noiseScale, waterThreshold]

lemma demoWaterGen_all_water : ∀ c r : Int, demoWaterGen.isWaterByNoise c r = true := by
  intro c r
  norm_num [demoWaterGen, TerrainGenerator.isWaterByNoise, noiseScale, waterThreshold]

lemma rawWaterTiles_empty {g : TerrainGenerator}
    (hg : ∀ c r : Int, g.isWaterByNoise c r = false) (sc sr ec er : Int) :
    rawWaterTiles g sc sr ec er = ∅ := by
  unfold rawWaterTiles
  have hnil : (regionTiles sc sr ec er).filter (fun p => g.isWaterByNoise p.1 p.2) = [] := by
    rw [List.filter_eq_nil_iff]
    intro a _
    simp [hg]
  rw [hnil]
  rfl

lemma generateWaterMap_of_no_raw {g : TerrainGenerator}
    (hg : ∀ c r : Int, g.isWaterByNoise c r = false) (sc sr ec er : Int) :
    generateWaterMap g sc sr ec er = ∅ := by
  unfold generateWaterMap
  rw [rawWaterTiles_empty hg]
  exact Finset.empty_sdiff _

/-! Claim C2: the variant function agrees with the variant table of the
specification on all sixteen neighbour combinations, and maps non water
tiles to grass. -/

/-- C2: with smoothing enabled, getWaterTileVariant of a water tile equals
the total specification table applied to the four axis neighbour flags
(N = col+1, E = row+1, S = col-1, W = row-1), and a non water tile always
maps to grass. -/
theorem getWaterTileVariant_matches_spec (g : TerrainGenerator)
    (hSm : g.smoothingEnabled = true) (wm : Finset Tile) (col row : Int) :
    g.getWaterTileVariant col row wm =
      if (col, row) ∈ wm then
        specVariantFor (decide ((col + 1, row) ∈ wm)) (decide ((col, row + 1) ∈ wm))
          (decide ((col - 1, row) ∈ wm)) (decide ((col, row - 1) ∈ wm))
      else TileVariant.grass := by
  by_cases hp : (col, row) ∈ wm
  · rw [if_pos hp]
    by_cases hn : (col + 1, row) ∈ wm <;> by_cases he : (col, row + 1) ∈ wm <;>
      by_cases hs : (col - 1, row) ∈ wm <;> by_cases hw2 : (col, row - 1) ∈ wm <;>
      simp [TerrainGenerator.getWaterTileVariant, specVariantFor, hSm, hp, hn, he, hs, hw2]
  · rw [if_neg hp]
    simp [TerrainGenerator.getWaterTileVariant, hp]

/-- Witness for C2 at a concrete generator and water set. -/
theorem getWaterTileVariant_matches_spec_witness :
    demoWaterGen.getWaterTileVariant 0 0 {(0, 0), (1, 0), (0, 1)} =
      if ((0 : Int), (0 : Int)) ∈ ({(0, 0), (1, 0), (0, 1)} : Finset Tile) then
        specVariantFor (decide (((1 : Int), (0 : Int)) ∈ ({(0, 0), (1, 0), (0, 1)} : Finset Tile)))
          (decide (((0 : Int), (1 : Int)) ∈ ({(0, 0), (1, 0), (0, 1)} : Finset Tile)))
          (decide (((-1 : Int), (0 : Int)) ∈ ({(0, 0), (1, 0), (0, 1)} : Finset Tile)))
          (decide (((0 : Int), (-1 : Int)) ∈ ({(0, 0), (1, 0), (0, 1)} : Finset Tile)))
      else TileVariant.grass :=
  getWaterTileVariant_matches_spec demoWaterGen rfl {(0, 0), (1, 0), (0, 1)} 0 0

/-! Claim C3: the output domain of generateChunkTerrain.  The claim as
stated fails: the source loops of generateChunkTerrain write a MapData
entry and a variant entry for every tile of the padded rectangle, so the
padding margin does appear in both outputs.  The amended statement
characterises both domains as exactly the padded rectangle. -/

lemma ite_some_ne_none {α : Type} (c : Prop) [Decidable c] (x : α) :
    (if c then some x else none) ≠ none ↔ c := by
  by_cases h : c <;> simp [h]

/-- Counterexample to C3 as stated: for chunk (0,0) of size 1, the padding
tile (-8,-8) has an entry in the MapData output and in the variant output,
although it lies outside the unpadded chunk rectangle (its column is
below the chunk start 0). -/
theorem generateChunkTerrain_padding_counterexample :
    (mapGet (demoGrassGen.generateChunkTerrain 0 0 1).mapData (-8, -8) ≠ none) ∧
    (mapGet (demoGrassGen.generateChunkTerrain 0 0 1).tileVariants (-8, -8) ≠ none) ∧
    ¬((0 : Int) ≤ -8) := by
  refine ⟨?_, ?_, by norm_num⟩ <;>
  · simp only [TerrainGenerator.generateChunkTerrain, mapGet_map_self]
    rw [if_pos (by decide)]
    simp

/-- C3 (amended): both outputs of generateChunkTerrain have entries for
exactly the tiles of the padded rectangle, the chunk rectangle expanded
by PADDING in every direction; in particular every padding margin tile
appears in both outputs. -/
theorem generateChunkTerrain_domain (g : TerrainGenerator)
    (chunkX chunkY chunkSize : Int) (p : Tile) :
    (mapGet (g.generateChunkTerrain chunkX chunkY chunkSize).mapData p ≠ none ↔
      (chunkX * chunkSize - PADDING ≤ p.1 ∧ p.1 < (chunkX + 1) * chunkSize + PADDING ∧
       chunkY * chunkSize - PADDING ≤ p.2 ∧ p.2 < (chunkY + 1) * chunkSize + PADDING)) ∧
    (mapGet (g.generateChunkTerrain chunkX chunkY chunkSize).tileVariants p ≠ none ↔
      (chunkX * chunkSize - PADDING ≤ p.1 ∧ p.1 < (chunkX + 1) * chunkSize + PADDING ∧
       chunkY * chunkSize - PADDING ≤ p.2 ∧ p.2 < (chunkY + 1) * chunkSize + PADDING)) := by
  constructor <;>
  · simp only [TerrainGenerator.generateChunkTerrain, mapGet_map_self,
      ite_some_ne_none, mem_regionTiles]

/-! Claim C8: a lookup for a tile whose chunk is not resident returns the
unknown result rather than failing. -/

/-- C8: when the containing chunk of (col, row) has no entry in the chunk
cache, getTileType returns none (the undefined result of the source). -/
theorem getTileType_nonresident_none (cm : ChunkManager) (col row : Int)
    (h : mapGet cm.chunks (tileToChunk col row) = none) :
    cm.getTileType col row = none := by
  simp only [ChunkManager.getTileType]
  rw [h]

/-- Witness for C8 on the empty cache. -/
theorem getTileType_nonresident_none_witness :
    demoCM.getTileType 100 100 = none :=
  getTileType_nonresident_none demoCM 100 100 rfl

/-! Claim C10: terrain type and variant agree on every output tile of
generateChunkTerrain. -/

/-- The water family: every variant a water tile can receive. -/
def waterFamily : List TileVariant :=
  [TileVariant.water, .grass_water_N, .grass_water_E, .grass_water_S, .grass_water_W,
   .grass_waterConcave_N, .grass_waterConcave_E, .grass_waterConcave_S, .grass_waterConcave_W]

lemma getWaterTileVariant_mem_waterFamily (g : TerrainGenerator) (col row : Int)
    (wm : Finset Tile) (h : (col, row) ∈ wm) :
    g.getWaterTileVariant col row wm ∈ waterFamily := by
  by_cases hsm : g.smoothingEnabled <;>
    by_cases hn : (col + 1, row) ∈ wm <;> by_cases he : (col, row + 1) ∈ wm <;>
    by_cases hs : (col - 1, row) ∈ wm <;> by_cases hw2 : (col, row - 1) ∈ wm <;>
    simp [TerrainGenerator.getWaterTileVariant, waterFamily, h, hsm, hn, he, hs, hw2]

lemma getWaterTileVariant_grass_iff (g : TerrainGenerator) (col row : Int)
    (wm : Finset Tile) :
    g.getWaterTileVariant col row wm = TileVariant.grass ↔ (col, row) ∉ wm := by
  constructor
  · intro hv
    by_contra hmem
    have := getWaterTileVariant_mem_waterFamily g col row wm hmem
    rw [hv] at this
    simp [waterFamily] at this
  · intro hmem
    simp [TerrainGenerator.getWaterTileVariant, hmem]

/-- C10: for every tile present in the output of generateChunkTerrain,
the variant is grass exactly when the terrain type is grass, and a water
terrain type receives one of the nine water family variants. -/
theorem generateChunkTerrain_variant_agreement (g : TerrainGenerator)
    (chunkX chunkY chunkSize : Int) (p : Tile) (t : MapTileType) (v : TileVariant)
    (ht : mapGet (g.generateChunkTerrain chunkX chunkY chunkSize).mapData p = some t)
    (hv : mapGet (g.generateChunkTerrain chunkX chunkY chunkSize).tileVariants p = some v) :
    (v = TileVariant.grass ↔ t = MapTileType.grass) ∧
    (t = MapTileType.water → v ∈ waterFamily) := by
  simp only [TerrainGenerator.generateChunkTerrain, mapGet_map_self] at ht hv
  by_cases hp : p ∈ regionTiles (chunkX * chunkSize - PADDING) (chunkY * chunkSize - PADDING)
      ((chunkX + 1) * chunkSize + PADDING) ((chunkY + 1) * chunkSize + PADDING)
  · rw [if_pos hp] at ht hv
    have ht2 := Option.some.inj ht
    have hv2 := Option.some.inj hv
    subst ht2
    subst hv2
    by_cases hw : p ∈ generateWaterMap g (chunkX * chunkSize - PADDING)
        (chunkY * chunkSize - PADDING) ((chunkX + 1) * chunkSize + PADDING)
        ((chunkY + 1) * chunkSize + PADDING)
    · have hw2 : (p.1, p.2) ∈ generateWaterMap g (chunkX * chunkSize - PADDING)
          (chunkY * chunkSize - PADDING) ((chunkX + 1) * chunkSize + PADDING)
          ((chunkY + 1) * chunkSize + PADDING) := by simpa using hw
      constructor
      · rw [if_pos hw, getWaterTileVariant_grass_iff]
        simp [hw2]
      · intro _
        exact getWaterTileVariant_mem_waterFamily g p.1 p.2 _ hw2
    · have hw2 : (p.1, p.2) ∉ generateWaterMap g (chunkX * chunkSize - PADDING)
          (chunkY * chunkSize - PADDING) ((chunkX + 1) * chunkSize + PADDING)
          ((chunkY + 1) * chunkSize + PADDING) := by simpa using hw
      constructor
      · rw [if_neg hw, getWaterTileVariant_grass_iff]
        simp [hw2]
      · intro habs
        rw [if_neg hw] at habs
        exact absurd habs (by simp)
  · rw [if_neg hp] at ht
    exact absurd ht (by simp)

/-- Witness for C10: the all grass generator on chunk (0,0) of size 1. -/
theorem generateChunkTerrain_variant_agreement_witness :
    ((TileVariant.grass = TileVariant.grass ↔ MapTileType.grass = MapTileType.grass) ∧
      (MapTileType.grass = MapTileType.water → TileVariant.grass ∈ waterFamily)) := by
  refine generateChunkTerrain_variant_agreement demoGrassGen 0 0 1 (0, 0)
    MapTileType.grass TileVariant.grass ?_ ?_
  · simp only [TerrainGenerator.generateChunkTerrain, mapGet_map_self]
    rw [if_pos (by decide)]
    simp [generateWaterMap_of_no_raw demoGrassGen_no_water]
  · simp only [TerrainGenerator.generateChunkTerrain, mapGet_map_self]
    rw [if_pos (by decide)]
    simp [TerrainGenerator.getWaterTileVariant,
      generateWaterMap_of_no_raw demoGrassGen_no_water]

/-! Claim C1: correctness of the small cluster filter.  The flood fill of
countWaterClusterSize is proved to visit exactly the 4-connected component
of its start tile, and the second pass of generateWaterMap to collect in
smallClusters exactly the water tiles whose component is below the
minimum size. -/

lemma adjacentTile_symm {a b : Tile} (h : adjacentTile a b) : adjacentTile b a := by
  obtain ⟨a1, a2⟩ := a
  rcases h with h | h | h | h <;> subst h <;>
    simp [adjacentTile, Prod.ext_iff]

lemma reachesIn_symm {W : Finset Tile} {p q : Tile} (h : reachesIn W p q) :
    reachesIn W q p :=
  Relation.ReflTransGen.symmetric
    (fun _ _ hab => ⟨adjacentTile_symm hab.1, hab.2.2, hab.2.1⟩) h

lemma reachesIn_mem_right {W : Finset Tile} {p q : Tile} (hp : p ∈ W)
    (h : reachesIn W p q) : q ∈ W := by
  induction h with
  | refl => exact hp
  | tail _ hstep _ => exact hstep.2.2

lemma reachesIn_mono {W V : Finset Tile} (hWV : W ⊆ V) {p q : Tile}
    (h : reachesIn W p q) : reachesIn V p q :=
  Relation.ReflTransGen.mono (fun _ _ hab => ⟨hab.1, hWV hab.2.1, hWV hab.2.2⟩) h

lemma waterComponent_eq_of_reaches {W : Finset Tile} {p q : Tile}
    (h : reachesIn W p q) : waterComponent W q = waterComponent W p := by
  ext x
  simp only [waterComponent, Set.mem_setOf_eq]
  exact ⟨fun hx => Relation.ReflTransGen.trans h hx,
    fun hx => Relation.ReflTransGen.trans (reachesIn_symm h) hx⟩

/-- Path extension used in the soundness direction of the flood fill: a
path found by a recursive call, starting at a neighbour n of p and
avoiding the larger visited set V, extends to a path from p avoiding the
original visited set. -/
lemma reachesIn_extend {W visited V : Finset Tile} {p n q : Tile}
    (hsub : insert p visited ⊆ V)
    (hadj : adjacentTile p n) (hpW : p ∈ W) (hpnv : p ∉ visited)
    (hreach : reachesIn (W \ V) n q) (hq : q ∉ V) (hqUW : q ∈ V ∪ W) :
    reachesIn (W \ visited) p q := by
  have hvV : visited ⊆ V := (Finset.subset_insert p visited).trans hsub
  have hWV : W \ V ⊆ W \ visited := Finset.sdiff_subset_sdiff subset_rfl hvV
  have hqW : q ∈ W := by
    rcases Finset.mem_union.mp hqUW with h | h
    · exact absurd h hq
    · exact h
  have hpmem : p ∈ W \ visited := Finset.mem_sdiff.mpr ⟨hpW, hpnv⟩
  have hqmem : q ∈ W \ visited :=
    Finset.mem_sdiff.mpr ⟨hqW, fun hqv => hq (hvV hqv)⟩
  rcases Relation.ReflTransGen.cases_head hreach with h | ⟨b, hstep, hrest⟩
  · subst h
    exact Relation.ReflTransGen.single ⟨hadj, hpmem, hqmem⟩
  · have hn : n ∈ W \ visited := hWV hstep.2.1
    refine Relation.ReflTransGen.head ⟨hadj, hpmem, hn⟩ ?_
    exact Relation.ReflTransGen.mono
      (fun a b hab => ⟨hab.1, hWV hab.2.1, hWV hab.2.2⟩) hreach

/-- Main invariant of the fuelled flood fill, proved by induction on the
budget: with enough budget the call (i) only grows the visited set,
(ii) adds water tiles only, (iii) counts exactly the newly visited tiles,
(iv) adds only tiles reachable from the start through unvisited water,
(v) leaves no water neighbour of a newly visited tile outside the result,
and (vi) visits the start when it is unvisited water. -/
lemma floodFillVisit_spec (W : Finset Tile) :
    ∀ (fuel : Nat) (p : Tile) (visited : Finset Tile),
      (W \ visited).card < fuel →
      visited ⊆ (floodFillVisit W fuel p visited).2 ∧
      (floodFillVisit W fuel p visited).2 ⊆ visited ∪ W ∧
      (floodFillVisit W fuel p visited).1 + visited.card
        = (floodFillVisit W fuel p visited).2.card ∧
      (∀ q ∈ (floodFillVisit W fuel p visited).2, q ∉ visited →
        reachesIn (W \ visited) p q) ∧
      (∀ q ∈ (floodFillVisit W fuel p visited).2, q ∉ visited →
        ∀ s, adjacentTile q s → s ∈ W → s ∈ (floodFillVisit W fuel p visited).2) ∧
      (p ∈ W → p ∉ visited → p ∈ (floodFillVisit W fuel p visited).2) := by
  intro fuel
  induction fuel with
  | zero =>
    intro p visited h
    exact absurd h (Nat.not_lt_zero _)
  | succ fuel ih =>
    intro p visited hfuel
    by_cases hcond : p ∈ visited ∨ p ∉ W
    · have hres : floodFillVisit W (fuel + 1) p visited = (0, visited) := by
        rw [floodFillVisit, if_pos hcond]
      rw [hres]
      refine ⟨subset_rfl, Finset.subset_union_left, by simp, ?_, ?_, ?_⟩
      · intro q hq hqnv
        exact absurd hq hqnv
      · intro q hq hqnv
        exact absurd hq hqnv
      · intro hpW hpnv
        rcases hcond with h | h
        · exact absurd h hpnv
        · exact absurd hpW h
    · have hpnv : p ∉ visited := fun h => hcond (Or.inl h)
      have hpW : p ∈ W := by
        by_contra h
        exact hcond (Or.inr h)
      have hpmem : p ∈ W \ visited := Finset.mem_sdiff.mpr ⟨hpW, hpnv⟩
      set v0 : Finset Tile := insert p visited with hv0
      set r1 := floodFillVisit W fuel (p.1 - 1, p.2) v0 with hr1
      set r2 := floodFillVisit W fuel (p.1 + 1, p.2) r1.2 with hr2
      set r3 := floodFillVisit W fuel (p.1, p.2 - 1) r2.2 with hr3
      set r4 := floodFillVisit W fuel (p.1, p.2 + 1) r3.2 with hr4
      have hres : floodFillVisit W (fuel + 1) p visited
          = (1 + r1.1 + r2.1 + r3.1 + r4.1, r4.2) := by
        rw [floodFillVisit, if_neg hcond]
      have hcard0 : (W \ v0).card < fuel := by
        have hsd : W \ v0 = (W \ visited).erase p := by
          rw [hv0, Finset.sdiff_insert]
        have hpos : 0 < (W \ visited).card := Finset.card_pos.mpr ⟨p, hpmem⟩
        rw [hsd, Finset.card_erase_of_mem hpmem]
        omega
      obtain ⟨ha1, hb1, hc1, hd1, he1, hf1⟩ := ih (p.1 - 1, p.2) v0 hcard0
      rw [← hr1] at ha1 hb1 hc1 hd1 he1 hf1
      have hcard1 : (W \ r1.2).card < fuel :=
        lt_of_le_of_lt
          (Finset.card_le_card (Finset.sdiff_subset_sdiff subset_rfl ha1)) hcard0
      obtain ⟨ha2, hb2, hc2, hd2, he2, hf2⟩ := ih (p.1 + 1, p.2) r1.2 hcard1
      rw [← hr2] at ha2 hb2 hc2 hd2 he2 hf2
      have hcard2 : (W \ r2.2).card < fuel :=
        lt_of_le_of_lt
          (Finset.card_le_card (Finset.sdiff_subset_sdiff subset_rfl ha2)) hcard1
      obtain ⟨ha3, hb3, hc3, hd3, he3, hf3⟩ := ih (p.1, p.2 - 1) r2.2 hcard2
      rw [← hr3] at ha3 hb3 hc3 hd3 he3 hf3
      have hcard3 : (W \ r3.2).card < fuel :=
        lt_of_le_of_lt
          (Finset.card_le_card (Finset.sdiff_subset_sdiff subset_rfl ha3)) hcard2
      obtain ⟨ha4, hb4, hc4, hd4, he4, hf4⟩ := ih (p.1, p.2 + 1) r3.2 hcard3
      rw [← hr4] at ha4 hb4 hc4 hd4 he4 hf4
      have hvch : visited ⊆ v0 := Finset.subset_insert p visited
      have hch1 : v0 ⊆ r1.2 := ha1
      have hch2 : v0 ⊆ r2.2 := hch1.trans ha2
      have hch3 : v0 ⊆ r3.2 := hch2.trans ha3
      have hch4 : v0 ⊆ r4.2 := hch3.trans ha4
      have hpv0 : p ∈ v0 := Finset.mem_insert_self p visited
      have hv0sub : v0 ⊆ visited ∪ W := by
        intro x hx
        rcases Finset.mem_insert.mp hx with h | h
        · exact Finset.mem_union_right _ (h ▸ hpW)
        · exact Finset.mem_union_left _ h
      have hstep : ∀ {A B : Finset Tile}, A ⊆ B ∪ W → B ⊆ visited ∪ W →
          A ⊆ visited ∪ W := fun hA hB =>
        hA.trans (Finset.union_subset hB Finset.subset_union_right)
      have hbig : r4.2 ⊆ visited ∪ W :=
        hstep hb4 (hstep hb3 (hstep hb2 (hstep hb1 hv0sub)))
      rw [hres]
      refine ⟨hvch.trans hch4, hbig, ?_, ?_, ?_, ?_⟩
      · have hv0card : v0.card = visited.card + 1 := by
          rw [hv0, Finset.card_insert_of_not_mem hpnv]
        simp only
        omega
      · -- soundness: every newly visited tile is reachable
        intro q hq hqnv
        by_cases h3q : q ∈ r3.2
        · by_cases h2q : q ∈ r2.2
          · by_cases h1q : q ∈ r1.2
            · by_cases h0q : q ∈ v0
              · have hqp : q = p := by
                  rcases Finset.mem_insert.mp h0q with h | h
                  · exact h
                  · exact absurd h hqnv
                subst hqp
                exact Relation.ReflTransGen.refl
              · exact reachesIn_extend subset_rfl (Or.inl rfl) hpW hpnv
                  (hd1 q h1q h0q) h0q (hb1 h1q)
            · exact reachesIn_extend hch1 (Or.inr (Or.inl rfl)) hpW hpnv
                (hd2 q h2q h1q) h1q (hb2 h2q)
          · exact reachesIn_extend hch2 (Or.inr (Or.inr (Or.inl rfl))) hpW hpnv
              (hd3 q h3q h2q) h2q (hb3 h3q)
        · exact reachesIn_extend hch3 (Or.inr (Or.inr (Or.inr rfl))) hpW hpnv
            (hd4 q hq h3q) h3q (hb4 hq)
      · -- closedness: water neighbours of newly visited tiles are visited
        intro q hq hqnv s hadj hsW
        by_cases h0q : q ∈ v0
        · have hqp : q = p := by
            rcases Finset.mem_insert.mp h0q with h | h
            · exact h
            · exact absurd h hqnv
          subst hqp
          rcases hadj with h | h | h | h
          · subst h
            by_cases hsv : (q.1 - 1, q.2) ∈ v0
            · exact hch4 hsv
            · exact (ha2.trans (ha3.trans ha4)) (hf1 hsW hsv)
          · subst h
            by_cases hsv : (q.1 + 1, q.2) ∈ r1.2
            · exact (ha2.trans (ha3.trans ha4)) hsv
            · exact (ha3.trans ha4) (hf2 hsW hsv)
          · subst h
            by_cases hsv : (q.1, q.2 - 1) ∈ r2.2
            · exact (ha3.trans ha4) hsv
            · exact ha4 (hf3 hsW hsv)
          · subst h
            by_cases hsv : (q.1, q.2 + 1) ∈ r3.2
            · exact ha4 hsv
            · exact hf4 hsW hsv
        · by_cases h1q : q ∈ r1.2
          · exact (ha2.trans (ha3.trans ha4)) (he1 q h1q h0q s hadj hsW)
          · by_cases h2q : q ∈ r2.2
            · exact (ha3.trans ha4) (he2 q h2q h1q s hadj hsW)
            · by_cases h3q : q ∈ r3.2
              · exact ha4 (he3 q h3q h2q s hadj hsW)
              · exact he4 q hq h3q s hadj hsW
      · intro _ _
        exact hch4 hpv0

/-- The flood fill of countWaterClusterSize visits exactly the component
of its start tile. -/
lemma countWaterClusterSize_visited (W : Finset Tile) (p : Tile) (hp : p ∈ W) :
    ∀ q, q ∈ (countWaterClusterSize W p).2 ↔ reachesIn W p q := by
  have hfuel : (W \ (∅ : Finset Tile)).card < W.card + 1 := by
    rw [Finset.sdiff_empty]
    omega
  obtain ⟨_, _, _, hd, he, hf⟩ := floodFillVisit_spec W (W.card + 1) p ∅ hfuel
  intro q
  rw [countWaterClusterSize]
  constructor
  · intro hq
    have := hd q hq (Finset.not_mem_empty q)
    rwa [Finset.sdiff_empty] at this
  · intro hreach
    induction hreach with
    | refl => exact hf hp (Finset.not_mem_empty p)
    | tail hab hstep ihq =>
      exact he _ ihq (Finset.not_mem_empty _) _ hstep.1 hstep.2.2

/-- The size the flood fill returns is the cardinality of its visited set. -/
lemma countWaterClusterSize_size (W : Finset Tile) (p : Tile) :
    (countWaterClusterSize W p).1 = (countWaterClusterSize W p).2.card := by
  have hfuel : (W \ (∅ : Finset Tile)).card < W.card + 1 := by
    rw [Finset.sdiff_empty]
    omega
  have hc := (floodFillVisit_spec W (W.card + 1) p ∅ hfuel).2.2.1
  rw [countWaterClusterSize]
  simpa using hc

/-- For a water start tile, the flood fill result carries the component
and its size. -/
lemma countWaterClusterSize_component (W : Finset Tile) (p : Tile) (hp : p ∈ W) :
    waterComponent W p = ↑(countWaterClusterSize W p).2 ∧
    (countWaterClusterSize W p).1 = (waterComponent W p).ncard := by
  have hmem := countWaterClusterSize_visited W p hp
  have hset : waterComponent W p = ↑(countWaterClusterSize W p).2 := by
    ext q
    simp only [waterComponent, Set.mem_setOf_eq, Finset.coe_mem, Finset.mem_coe]
    exact (hmem q).symm
  refine ⟨hset, ?_⟩
  rw [hset, Set.ncard_coe_Finset, countWaterClusterSize_size]

/-- Invariant of the second pass of generateWaterMap: the visited set is
a union of whole components of water tiles, and smallClusters holds
exactly the visited tiles of small components. -/
def clusterInv (W : Finset Tile) (acc : Finset Tile × Finset Tile) : Prop :=
  acc.1 ⊆ W ∧
  (∀ q ∈ acc.1, ∀ x, reachesIn W q x → x ∈ acc.1) ∧
  (∀ q, q ∈ acc.2 ↔ q ∈ acc.1 ∧ (waterComponent W q).ncard < minWaterClusterSize)

lemma clusterInv_step (W : Finset Tile) (acc : Finset Tile × Finset Tile) (p : Tile)
    (h : clusterInv W acc) : clusterInv W (markClusters W acc p) := by
  obtain ⟨h1, h2, h3⟩ := h
  by_cases hc : p ∉ acc.1 ∧ p ∈ W
  · have hres : markClusters W acc p
        = (acc.1 ∪ (countWaterClusterSize W p).2,
           if (countWaterClusterSize W p).1 < minWaterClusterSize
           then acc.2 ∪ (countWaterClusterSize W p).2 else acc.2) := by
      rw [markClusters, if_pos hc]
    obtain ⟨hpnv, hpW⟩ := hc
    have hvis := countWaterClusterSize_visited W p hpW
    have hcomp := countWaterClusterSize_component W p hpW
    have hC_W : (countWaterClusterSize W p).2 ⊆ W := by
      intro q hq
      exact reachesIn_mem_right hpW ((hvis q).mp hq)
    have hCcard : ∀ q ∈ (countWaterClusterSize W p).2,
        (waterComponent W q).ncard = (countWaterClusterSize W p).1 := by
      intro q hq
      rw [waterComponent_eq_of_reaches ((hvis q).mp hq), hcomp.2]
    rw [hres]
    refine ⟨Finset.union_subset h1 hC_W, ?_, ?_⟩
    · intro q hq x hx
      rcases Finset.mem_union.mp hq with hqa | hqC
      · exact Finset.mem_union_left _ (h2 q hqa x hx)
      · refine Finset.mem_union_right _ ((hvis x).mpr ?_)
        exact Relation.ReflTransGen.trans ((hvis q).mp hqC) hx
    · intro q
      by_cases hsize : (countWaterClusterSize W p).1 < minWaterClusterSize
      · rw [if_pos hsize]
        constructor
        · intro hq
          rcases Finset.mem_union.mp hq with hqa | hqC
          · obtain ⟨hq1, hq2⟩ := (h3 q).mp hqa
            exact ⟨Finset.mem_union_left _ hq1, hq2⟩
          · refine ⟨Finset.mem_union_right _ hqC, ?_⟩
            rw [hCcard q hqC]
            exact hsize
        · rintro ⟨hq1, hq2⟩
          rcases Finset.mem_union.mp hq1 with hqa | hqC
          · exact Finset.mem_union_left _ ((h3 q).mpr ⟨hqa, hq2⟩)
          · exact Finset.mem_union_right _ hqC
      · rw [if_neg hsize]
        constructor
        · intro hq
          obtain ⟨hq1, hq2⟩ := (h3 q).mp hq
          exact ⟨Finset.mem_union_left _ hq1, hq2⟩
        · rintro ⟨hq1, hq2⟩
          rcases Finset.mem_union.mp hq1 with hqa | hqC
          · exact (h3 q).mpr ⟨hqa, hq2⟩
          · exact absurd hq2 (by rw [hCcard q hqC]; omega)
  · have hres : markClusters W acc p = acc := by
      rw [markClusters, if_neg hc]
    rw [hres]
    exact ⟨h1, h2, h3⟩

lemma clusterInv_foldl (W : Finset Tile) (l : List Tile)
    (acc : Finset Tile × Finset Tile) (h : clusterInv W acc) :
    clusterInv W (l.foldl (markClusters W) acc) := by
  induction l generalizing acc with
  | nil => exact h
  | cons p rest ih => exact ih _ (clusterInv_step W acc p h)

lemma markClusters_visited_mono (W : Finset Tile) (acc : Finset Tile × Finset Tile)
    (p : Tile) : acc.1 ⊆ (markClusters W acc p).1 := by
  by_cases hc : p ∉ acc.1 ∧ p ∈ W
  · rw [markClusters, if_pos hc]
    exact Finset.subset_union_left
  · rw [markClusters, if_neg hc]

lemma foldl_visited_mono (W : Finset Tile) (l : List Tile)
    (acc : Finset Tile × Finset Tile) :
    acc.1 ⊆ (l.foldl (markClusters W) acc).1 := by
  induction l generalizing acc with
  | nil => exact subset_rfl
  | cons p rest ih => exact (markClusters_visited_mono W acc p).trans (ih _)

lemma foldl_visited_covers (W : Finset Tile) (l : List Tile)
    (acc : Finset Tile × Finset Tile) (p : Tile) (hp : p ∈ l) (hpW : p ∈ W) :
    p ∈ (l.foldl (markClusters W) acc).1 := by
  induction l generalizing acc with
  | nil => cases hp
  | cons q rest ih =>
    rcases List.mem_cons.mp hp with rfl | h
    · refine foldl_visited_mono W rest (markClusters W acc p) ?_
      by_cases hc : p ∉ acc.1 ∧ p ∈ W
      · rw [markClusters, if_pos hc]
        refine Finset.mem_union_right _ ?_
        exact (countWaterClusterSize_visited W p hpW p).mpr Relation.ReflTransGen.refl
      · rw [markClusters, if_neg hc]
        by_contra hne
        exact hc ⟨hne, hpW⟩
    · exact ih _ h

/-- C1: for a raw water tile of the region, the filtered water map of
generateWaterMap keeps the tile as water exactly when its maximal
4-connected component of raw water tiles, restricted to the region, has
at least minWaterClusterSize (4) tiles; smaller components are
reclassified as grass. -/
theorem generateWaterMap_cluster_suppression (g : TerrainGenerator)
    (startCol startRow endCol endRow : Int) (p : Tile)
    (hp : p ∈ regionTiles startCol startRow endCol endRow)
    (hw : g.isWaterByNoise p.1 p.2 = true) :
    (p ∈ generateWaterMap g startCol startRow endCol endRow ↔
      minWaterClusterSize ≤
        (waterComponent (rawWaterTiles g startCol startRow endCol endRow) p).ncard) := by
  have hpW : p ∈ rawWaterTiles g startCol startRow endCol endRow := by
    rw [rawWaterTiles, List.mem_toFinset, List.mem_filter]
    exact ⟨hp, by simpa using hw⟩
  have hinv0 : clusterInv (rawWaterTiles g startCol startRow endCol endRow) (∅, ∅) := by
    refine ⟨Finset.empty_subset _, ?_, ?_⟩
    · intro q hq
      exact absurd hq (Finset.not_mem_empty q)
    · intro q
      simp
  have hinv := clusterInv_foldl (rawWaterTiles g startCol startRow endCol endRow)
    (regionTiles startCol startRow endCol endRow) (∅, ∅) hinv0
  have hcover := foldl_visited_covers (rawWaterTiles g startCol startRow endCol endRow)
    (regionTiles startCol startRow endCol endRow) (∅, ∅) p hp hpW
  have hsmall := hinv.2.2 p
  rw [generateWaterMap, Finset.mem_sdiff]
  constructor
  · rintro ⟨_, hnot2⟩
    by_contra hlt
    push_neg at hlt
    exact hnot2 (hsmall.mpr ⟨hcover, hlt⟩)
  · intro hge
    refine ⟨hpW, fun habs => ?_⟩
    have := (hsmall.mp habs).2
    omega

/-- Witness for C1 on the all water generator and a 2 by 2 region. -/
theorem generateWaterMap_cluster_suppression_witness :
    (((0 : Int), (0 : Int)) ∈ generateWaterMap demoWaterGen 0 0 2 2 ↔
      minWaterClusterSize ≤
        (waterComponent (rawWaterTiles demoWaterGen 0 0 2 2) ((0 : Int), (0 : Int))).ncard) :=
  generateWaterMap_cluster_suppression demoWaterGen 0 0 2 2 (0, 0) (by decide)
    (demoWaterGen_all_water 0 0)

/-! Claim C4: after updateVisibleChunks the resident chunk set is exactly
the required chunk box, absent box chunks having been generated and
stored, and evicted chunks having lost their data and their registered
tile interactions. -/

lemma mem_chunkKeyList {a b c d : Int} {k : Int × Int} :
    k ∈ chunkKeyList a b c d ↔ a ≤ k.1 ∧ k.1 ≤ c ∧ b ≤ k.2 ∧ k.2 ≤ d := by
  unfold chunkKeyList intRangeIcc
  simp only [List.mem_flatMap, List.mem_map, mem_intRange]
  constructor
  · rintro ⟨cy, hcy, cx, hcx, rfl⟩
    exact ⟨hcx.1, by omega, hcy.1, by omega⟩
  · rintro ⟨h1, h2, h3, h4⟩
    exact ⟨k.2, ⟨h3, by omega⟩, k.1, ⟨h1, by omega⟩, by simp⟩

lemma generateChunk_fst_chunks (cm : ChunkManager) (x y : Int) :
    ((cm.generateChunk x y).1).chunks = cm.chunks := rfl

lemma generateChunk_snd (cm : ChunkManager) (x y : Int) :
    (cm.generateChunk x y).2 = cm.chunkDataFor x y := rfl

lemma generateChunk_config (cm : ChunkManager) (x y : Int) :
    ((cm.generateChunk x y).1).config = cm.config := rfl

lemma generateChunk_coords_other (cm : ChunkManager) (x y : Int) {k' : Int × Int}
    (h : k' ≠ (x, y)) :
    ((cm.generateChunk x y).1).chunkCoordinates k' = cm.chunkCoordinates k' := by
  show (if (if cm.hasGridManager then cm.chunkRenderTiles x y else []) ≠ [] then
      Function.update cm.chunkCoordinates (x, y)
        (if cm.hasGridManager then cm.chunkRenderTiles x y else [])
    else cm.chunkCoordinates) k' = cm.chunkCoordinates k'
  split_ifs <;> first | exact Function.update_noteq h _ _ | rfl

lemma loadChunkIfAbsent_config (cm : ChunkManager) (k : Int × Int) :
    (cm.loadChunkIfAbsent k).config = cm.config := by
  simp only [ChunkManager.loadChunkIfAbsent]
  split
  · rfl
  · rfl

lemma chunkDataFor_congr {cm cm' : ChunkManager} (h : cm'.config = cm.config)
    (x y : Int) : cm'.chunkDataFor x y = cm.chunkDataFor x y := by
  simp only [ChunkManager.config, Prod.mk.injEq] at h
  obtain ⟨h1, h2, h3, h4, h5, h6⟩ := h
  simp [ChunkManager.chunkDataFor, ChunkManager.chunkRenderTiles,
    ChunkManager.shouldRenderTile, h1, h4, h5]

lemma loadChunkIfAbsent_resident (cm : ChunkManager) (k k' : Int × Int)
    (h : mapGet cm.chunks k' ≠ none) :
    mapGet (cm.loadChunkIfAbsent k).chunks k' = mapGet cm.chunks k' := by
  simp only [ChunkManager.loadChunkIfAbsent]
  split
  · rfl
  · obtain ⟨v, hv⟩ := Option.ne_none_iff_exists'.mp h
    show mapGet (cm.chunks ++ [(k, (cm.generateChunk k.1 k.2).2)]) k' = _
    rw [mapGet_append_left _ hv, hv]

lemma loadChunkIfAbsent_hit (cm : ChunkManager) (k : Int × Int)
    (h : mapGet cm.chunks k = none) :
    mapGet (cm.loadChunkIfAbsent k).chunks k = some (cm.chunkDataFor k.1 k.2) := by
  simp only [ChunkManager.loadChunkIfAbsent]
  rw [if_neg (by simp [h])]
  show mapGet (cm.chunks ++ [(k, (cm.generateChunk k.1 k.2).2)]) k = _
  rw [mapGet_append_right _ h, generateChunk_snd]
  simp [mapGet]

lemma loadChunkIfAbsent_miss (cm : ChunkManager) (k k' : Int × Int)
    (hk : k' ≠ k) (h : mapGet cm.chunks k' = none) :
    mapGet (cm.loadChunkIfAbsent k).chunks k' = none := by
  simp only [ChunkManager.loadChunkIfAbsent]
  split
  · exact h
  · show mapGet (cm.chunks ++ [(k, (cm.generateChunk k.1 k.2).2)]) k' = none
    rw [mapGet_append_right _ h]
    simp [mapGet, Ne.symm hk]

lemma loadChunkIfAbsent_coords (cm : ChunkManager) (k k' : Int × Int)
    (h : mapGet cm.chunks k' ≠ none) :
    (cm.loadChunkIfAbsent k).chunkCoordinates k' = cm.chunkCoordinates k' := by
  simp only [ChunkManager.loadChunkIfAbsent]
  split
  · rfl
  · rename_i hk
    have hkn : mapGet cm.chunks k = none := by
      by_contra hx
      exact hk hx
    have hne : k' ≠ k := fun he => h (he ▸ hkn)
    show ((cm.generateChunk k.1 k.2).1).chunkCoordinates k' = _
    rw [generateChunk_coords_other cm k.1 k.2 (by simpa using hne)]

lemma loadChunkIfAbsent_nodup (cm : ChunkManager) (k : Int × Int)
    (h : (cm.chunks.map Prod.fst).Nodup) :
    ((cm.loadChunkIfAbsent k).chunks.map Prod.fst).Nodup := by
  simp only [ChunkManager.loadChunkIfAbsent]
  split
  · exact h
  · rename_i hk
    have hkn : mapGet cm.chunks k = none := by
      by_contra hx
      exact hk hx
    have hnotin : k ∉ cm.chunks.map Prod.fst := mapGet_eq_none_iff.mp hkn
    show ((cm.chunks ++ [(k, (cm.generateChunk k.1 k.2).2)]).map Prod.fst).Nodup
    rw [List.map_append]
    simp [List.nodup_append, h, hnotin]

lemma load_foldl_config (l : List (Int × Int)) (cm : ChunkManager) :
    (l.foldl ChunkManager.loadChunkIfAbsent cm).config = cm.config := by
  induction l generalizing cm with
  | nil => rfl
  | cons k rest ih => rw [List.foldl_cons, ih, loadChunkIfAbsent_config]

lemma load_foldl_resident (l : List (Int × Int)) (cm : ChunkManager)
    (k : Int × Int) (h : mapGet cm.chunks k ≠ none) :
    mapGet (l.foldl ChunkManager.loadChunkIfAbsent cm).chunks k
      = mapGet cm.chunks k := by
  induction l generalizing cm with
  | nil => rfl
  | cons k0 rest ih =>
    rw [List.foldl_cons]
    rw [ih _ (by rw [loadChunkIfAbsent_resident cm k0 k h]; exact h),
      loadChunkIfAbsent_resident cm k0 k h]

lemma load_foldl_miss (l : List (Int × Int)) (cm : ChunkManager)
    (k : Int × Int) (h : mapGet cm.chunks k = none) (hk : k ∉ l) :
    mapGet (l.foldl ChunkManager.loadChunkIfAbsent cm).chunks k = none := by
  induction l generalizing cm with
  | nil => exact h
  | cons k0 rest ih =>
    rw [List.foldl_cons]
    have hne : k ≠ k0 := fun he => hk (he ▸ List.mem_cons_self k0 rest)
    exact ih (cm.loadChunkIfAbsent k0)
      (loadChunkIfAbsent_miss cm k0 k hne h)
      (fun hr => hk (List.mem_cons_of_mem k0 hr))

lemma load_foldl_hit (l : List (Int × Int)) (cm : ChunkManager)
    (k : Int × Int) (h : mapGet cm.chunks k = none) (hk : k ∈ l) :
    mapGet (l.foldl ChunkManager.loadChunkIfAbsent cm).chunks k
      = some (cm.chunkDataFor k.1 k.2) := by
  induction l generalizing cm with
  | nil => cases hk
  | cons k0 rest ih =>
    rw [List.foldl_cons]
    by_cases he : k = k0
    · subst he
      rw [load_foldl_resident rest _ k
          (by rw [loadChunkIfAbsent_hit cm k h]; simp),
        loadChunkIfAbsent_hit cm k h]
    · have hk0 : mapGet (cm.loadChunkIfAbsent k0).chunks k = none :=
        loadChunkIfAbsent_miss cm k0 k he h
      have hrest : k ∈ rest := by
        rcases List.mem_cons.mp hk with h1 | h1
        · exact absurd h1 he
        · exact h1
      rw [ih _ hk0 hrest,
        chunkDataFor_congr (loadChunkIfAbsent_config cm k0) k.1 k.2]

lemma load_foldl_coords (l : List (Int × Int)) (cm : ChunkManager)
    (k : Int × Int) (h : mapGet cm.chunks k ≠ none) :
    (l.foldl ChunkManager.loadChunkIfAbsent cm).chunkCoordinates k
      = cm.chunkCoordinates k := by
  induction l generalizing cm with
  | nil => rfl
  | cons k0 rest ih =>
    rw [List.foldl_cons,
      ih _ (by rw [loadChunkIfAbsent_resident cm k0 k h]; exact h),
      loadChunkIfAbsent_coords cm k0 k h]

lemma load_foldl_nodup (l : List (Int × Int)) (cm : ChunkManager)
    (h : (cm.chunks.map Prod.fst).Nodup) :
    ((l.foldl ChunkManager.loadChunkIfAbsent cm).chunks.map Prod.fst).Nodup := by
  induction l generalizing cm with
  | nil => exact h
  | cons k0 rest ih =>
    rw [List.foldl_cons]
    exact ih _ (loadChunkIfAbsent_nodup cm k0 h)

/-! Single step lemmas for eviction. -/

lemma evictChunk_config (cm : ChunkManager) (k : Int × Int) :
    (cm.evictChunk k).config = cm.config := rfl

lemma evictChunk_chunks_self (cm : ChunkManager) (k : Int × Int) :
    mapGet (cm.evictChunk k).chunks k = none :=
  mapGet_filter_self cm.chunks k

lemma evictChunk_chunks_other (cm : ChunkManager) {k k' : Int × Int}
    (h : k' ≠ k) : mapGet (cm.evictChunk k).chunks k' = mapGet cm.chunks k' :=
  mapGet_filter_ne cm.chunks h

lemma evictChunk_coords_other (cm : ChunkManager) {k k' : Int × Int}
    (h : k' ≠ k) : (cm.evictChunk k).chunkCoordinates k' = cm.chunkCoordinates k' :=
  Function.update_noteq h _ _

lemma foldl_erase_subset {α : Type} [DecidableEq α] (l : List α) (s : Finset α) :
    l.foldl (fun t p => t.erase p) s ⊆ s := by
  induction l generalizing s with
  | nil => exact subset_rfl
  | cons q rest ih => exact (ih _).trans (Finset.erase_subset q s)

lemma mem_foldl_erase_not {α : Type} [DecidableEq α] (l : List α) (s : Finset α)
    (p : α) (hp : p ∈ l) : p ∉ l.foldl (fun t q => t.erase q) s := by
  induction l generalizing s with
  | nil => cases hp
  | cons q rest ih =>
    rcases List.mem_cons.mp hp with rfl | h
    · intro hmem
      exact absurd (foldl_erase_subset rest _ hmem) (Finset.not_mem_erase p s)
    · exact ih _ h

lemma evictChunk_hooks_subset (cm : ChunkManager) (k : Int × Int) :
    (cm.evictChunk k).hooks ⊆ cm.hooks := by
  show (if cm.hasGridManager then
      (cm.chunkCoordinates k).foldl (fun s p => s.erase p) cm.hooks
    else cm.hooks) ⊆ cm.hooks
  split
  · exact foldl_erase_subset _ _
  · exact subset_rfl

lemma evictChunk_hooks_removed (cm : ChunkManager) (k : Int × Int)
    (hGM : cm.hasGridManager = true) (p : Tile) (hp : p ∈ cm.chunkCoordinates k) :
    p ∉ (cm.evictChunk k).hooks := by
  show p ∉ (if cm.hasGridManager then
      (cm.chunkCoordinates k).foldl (fun s q => s.erase q) cm.hooks
    else cm.hooks)
  rw [if_pos hGM]
  exact mem_foldl_erase_not _ _ p hp

lemma evict_foldl_config (l : List (Int × Int)) (cm : ChunkManager) :
    (l.foldl ChunkManager.evictChunk cm).config = cm.config := by
  induction l generalizing cm with
  | nil => rfl
  | cons k rest ih => rw [List.foldl_cons, ih, evictChunk_config]

lemma evict_foldl_other (l : List (Int × Int)) (cm : ChunkManager)
    (k : Int × Int) (hk : k ∉ l) :
    mapGet (l.foldl ChunkManager.evictChunk cm).chunks k = mapGet cm.chunks k := by
  induction l generalizing cm with
  | nil => rfl
  | cons k0 rest ih =>
    rw [List.foldl_cons]
    have hne : k ≠ k0 := fun he => hk (he ▸ List.mem_cons_self k0 rest)
    rw [ih _ (fun hr => hk (List.mem_cons_of_mem k0 hr)),
      evictChunk_chunks_other cm hne]

lemma evict_foldl_hooks_subset (l : List (Int × Int)) (cm : ChunkManager) :
    (l.foldl ChunkManager.evictChunk cm).hooks ⊆ cm.hooks := by
  induction l generalizing cm with
  | nil => exact subset_rfl
  | cons k0 rest ih =>
    rw [List.foldl_cons]
    exact (ih _).trans (evictChunk_hooks_subset cm k0)

lemma evict_foldl_gone (l : List (Int × Int)) (cm : ChunkManager)
    (hnd : l.Nodup) (k : Int × Int) (hk : k ∈ l) :
    mapGet (l.foldl ChunkManager.evictChunk cm).chunks k = none := by
  induction l generalizing cm with
  | nil => cases hk
  | cons k0 rest ih =>
    rw [List.foldl_cons]
    rcases List.mem_cons.mp hk with rfl | h
    · rw [evict_foldl_other rest _ k (List.Nodup.not_mem hnd)]
      exact evictChunk_chunks_self cm k
    · exact ih _ (List.Nodup.of_cons hnd) h

lemma evict_foldl_hooks_removed (l : List (Int × Int)) (cm : ChunkManager)
    (hnd : l.Nodup) (hGM : cm.hasGridManager = true) (k : Int × Int) (hk : k ∈ l)
    (p : Tile) (hp : p ∈ cm.chunkCoordinates k) :
    p ∉ (l.foldl ChunkManager.evictChunk cm).hooks := by
  induction l generalizing cm with
  | nil => cases hk
  | cons k0 rest ih =>
    rw [List.foldl_cons]
    rcases List.mem_cons.mp hk with rfl | h
    · intro hmem
      exact evictChunk_hooks_removed cm k hGM p hp
        (evict_foldl_hooks_subset rest _ hmem)
    · have hne : k ≠ k0 := fun he => (List.Nodup.not_mem hnd) (he ▸ h)
      refine ih _ (List.Nodup.of_cons hnd) ?_ h ?_
      · have := evictChunk_config cm k0
        simp only [ChunkManager.config, Prod.mk.injEq] at this
        rw [this.2.2.2.2.2, hGM]
      · rw [evictChunk_coords_other cm hne]
        exact hp

lemma mem_keys_iff_mapGet {κ α : Type} [DecidableEq κ] (l : List (κ × α)) (k : κ) :
    k ∈ l.map Prod.fst ↔ mapGet l k ≠ none := by
  rw [Ne, mapGet_eq_none_iff, not_not]

lemma config_hasGridManager {cm cm' : ChunkManager} (h : cm'.config = cm.config) :
    cm'.hasGridManager = cm.hasGridManager := by
  simp only [ChunkManager.config, Prod.mk.injEq] at h
  exact h.2.2.2.2.2

/-- Core of updateVisibleChunks: loading every chunk of the keep list and
then evicting every resident chunk outside it leaves exactly the keep
list resident, with absent keep chunks freshly generated, and evicted
chunks emptied of data and of registered tile interactions. -/
lemma update_core (cm : ChunkManager) (keep : List (Int × Int))
    (hnodup : (cm.chunks.map Prod.fst).Nodup) (hGM : cm.hasGridManager = true)
    {cm1 fin : ChunkManager} {toEvict : List (Int × Int)}
    (hcm1 : cm1 = keep.foldl ChunkManager.loadChunkIfAbsent cm)
    (hev : toEvict = (cm1.chunks.map Prod.fst).filter (fun k => decide (k ∉ keep)))
    (hfin : fin = toEvict.foldl ChunkManager.evictChunk cm1) :
    (∀ k, mapGet fin.chunks k ≠ none ↔ k ∈ keep) ∧
    (∀ k ∈ keep, mapGet cm.chunks k = none →
      mapGet fin.chunks k = some (cm.chunkDataFor k.1 k.2)) ∧
    (∀ k, mapGet cm.chunks k ≠ none → k ∉ keep →
      mapGet fin.chunks k = none ∧
      ∀ p ∈ cm.chunkCoordinates k, p ∉ fin.hooks) := by
  have hnd1 : (cm1.chunks.map Prod.fst).Nodup := by
    rw [hcm1]
    exact load_foldl_nodup keep cm hnodup
  have hndE : toEvict.Nodup := by
    rw [hev]
    exact List.Nodup.filter _ hnd1
  have hGM1 : cm1.hasGridManager = true := by
    rw [config_hasGridManager (hcm1 ▸ load_foldl_config keep cm), hGM]
  have hmemEv : ∀ k, k ∈ toEvict ↔ (mapGet cm1.chunks k ≠ none ∧ k ∉ keep) := by
    intro k
    rw [hev, List.mem_filter, mem_keys_iff_mapGet]
    simp
  have hcm1keep : ∀ k ∈ keep, mapGet cm1.chunks k ≠ none := by
    intro k hk
    by_cases hres : mapGet cm.chunks k = none
    · rw [hcm1, load_foldl_hit keep cm k hres hk]
      simp
    · rw [hcm1, load_foldl_resident keep cm k hres]
      exact hres
  have hkeepEv : ∀ k ∈ keep, k ∉ toEvict := by
    intro k hk hkEv
    exact ((hmemEv k).mp hkEv).2 hk
  refine ⟨?_, ?_, ?_⟩
  · intro k
    by_cases hk : k ∈ keep
    · refine ⟨fun _ => hk, fun _ => ?_⟩
      rw [hfin, evict_foldl_other toEvict cm1 k (hkeepEv k hk)]
      exact hcm1keep k hk
    · refine ⟨fun habs => ?_, fun hkk => absurd hkk hk⟩
      exfalso
      by_cases hres1 : mapGet cm1.chunks k = none
      · rw [hfin, evict_foldl_other toEvict cm1 k
          (fun hkEv => ((hmemEv k).mp hkEv).1 hres1)] at habs
        exact habs hres1
      · rw [hfin, evict_foldl_gone toEvict cm1 hndE k
          ((hmemEv k).mpr ⟨hres1, hk⟩)] at habs
        exact habs rfl
  · intro k hk habs
    rw [hfin, evict_foldl_other toEvict cm1 k (hkeepEv k hk), hcm1,
      load_foldl_hit keep cm k habs hk]
  · intro k hres hk
    have hres1 : mapGet cm1.chunks k ≠ none := by
      rw [hcm1, load_foldl_resident keep cm k hres]
      exact hres
    have hkEv : k ∈ toEvict := (hmemEv k).mpr ⟨hres1, hk⟩
    constructor
    · rw [hfin]
      exact evict_foldl_gone toEvict cm1 hndE k hkEv
    · intro p hp
      rw [hfin]
      refine evict_foldl_hooks_removed toEvict cm1 hndE hGM1 k hkEv p ?_
      rw [hcm1, load_foldl_coords keep cm k hres]
      exact hp

/-- C4: after updateVisibleChunks, the resident chunk keys are exactly
the required set (the viewport chunk box expanded by the render
distance); every required chunk that was absent has been generated and
stored; every previously resident chunk outside the required set has its
record removed and all its registered tile interactions deregistered. -/
theorem updateVisibleChunks_required_set (cm : ChunkManager) (vx vy vw vh scale : ℚ)
    (hnodup : (cm.chunks.map Prod.fst).Nodup) (hGM : cm.hasGridManager = true) :
    (((cm.updateVisibleChunks vx vy vw vh scale).chunks.map Prod.fst).toFinset
        = cm.requiredChunks vx vy vw vh scale) ∧
    (∀ k ∈ cm.requiredChunks vx vy vw vh scale, mapGet cm.chunks k = none →
      mapGet (cm.updateVisibleChunks vx vy vw vh scale).chunks k
        = some (cm.chunkDataFor k.1 k.2)) ∧
    (∀ k, mapGet cm.chunks k ≠ none → k ∉ cm.requiredChunks vx vy vw vh scale →
      mapGet (cm.updateVisibleChunks vx vy vw vh scale).chunks k = none ∧
      ∀ p ∈ cm.chunkCoordinates k,
        p ∉ (cm.updateVisibleChunks vx vy vw vh scale).hooks) := by
  set b := cm.viewportChunkBox vx vy vw vh scale with hb
  set keep := chunkKeyList b.1 b.2.1 b.2.2.1 b.2.2.2 with hkeep
  set cm1 := keep.foldl ChunkManager.loadChunkIfAbsent cm with hcm1
  set toEvict := (cm1.chunks.map Prod.fst).filter (fun k => decide (k ∉ keep)) with hev
  have hupd : cm.updateVisibleChunks vx vy vw vh scale
      = toEvict.foldl ChunkManager.evictChunk cm1 := rfl
  obtain ⟨h1, h2, h3⟩ := update_core cm keep hnodup hGM hcm1 hev rfl
  have hreqmem : ∀ k : Int × Int, k ∈ cm.requiredChunks vx vy vw vh scale ↔
      (b.1 ≤ k.1 ∧ k.1 ≤ b.2.2.1 ∧ b.2.1 ≤ k.2 ∧ k.2 ≤ b.2.2.2) := by
    intro k
    show k ∈ Finset.Icc b.1 b.2.2.1 ×ˢ Finset.Icc b.2.1 b.2.2.2 ↔ _
    rw [Finset.mem_product, Finset.mem_Icc, Finset.mem_Icc]
    tauto
  have hreq : ∀ k : Int × Int,
      k ∈ cm.requiredChunks vx vy vw vh scale ↔ k ∈ keep := by
    intro k
    rw [hreqmem k, hkeep, mem_chunkKeyList]
  refine ⟨?_, ?_, ?_⟩
  · ext k
    rw [List.mem_toFinset, hupd, mem_keys_iff_mapGet, h1 k, hreq k]
  · intro k hk habs
    rw [hupd]
    exact h2 k ((hreq k).mp hk) habs
  · intro k hres hk
    rw [hupd]
    exact h3 k hres (fun hkk => hk ((hreq k).mpr hkk))

/-- Witness for C4: the empty cache with a grid manager attached and a
concrete viewport. -/
theorem updateVisibleChunks_required_set_witness :
    (((demoCM.updateVisibleChunks 0 0 800 600 1).chunks.map Prod.fst).toFinset
        = demoCM.requiredChunks 0 0 800 600 1) ∧
    (∀ k ∈ demoCM.requiredChunks 0 0 800 600 1, mapGet demoCM.chunks k = none →
      mapGet (demoCM.updateVisibleChunks 0 0 800 600 1).chunks k
        = some (demoCM.chunkDataFor k.1 k.2)) ∧
    (∀ k, mapGet demoCM.chunks k ≠ none → k ∉ demoCM.requiredChunks 0 0 800 600 1 →
      mapGet (demoCM.updateVisibleChunks 0 0 800 600 1).chunks k = none ∧
      ∀ p ∈ demoCM.chunkCoordinates k,
        p ∉ (demoCM.updateVisibleChunks 0 0 800 600 1).hooks) :=
  updateVisibleChunks_required_set demoCM 0 0 800 600 1 (by simp [demoCM]) rfl

end ProcGen
